import Mathlib

/-!
# SkribblAI — verification of the game-session core

A shallow embedding of the game-session state machine, the guess tracker,
the word-selection logic and the drawing-permission checks of the SkribblAI
repository (latest `GameRoom.tsx` revision together with `DrawingCanvas.tsx`
and the lobby's game-creation code), with theorems settling the specification
claims about them.
-/

namespace SkribblAI

/-- The `status` column of a game row (`"waiting" | "choosing_word" | "playing"
| "round_summary" | "finished"`). -/
inductive Phase
  | waiting
  | choosingWord
  | playing
  | roundSummary
  | finished
deriving DecidableEq, Repr

/-- One `game_players` row: user id, join timestamp (milliseconds) and
cumulative score. -/
structure Player where
  userId : String
  joinedAt : Nat
  score : Nat
deriving DecidableEq, Repr

/-- Insert a player into a list that is already sorted by `joinedAt`,
keeping earlier joiners first (stable, as the JS `Array.prototype.sort`
with comparator `(a, b) => a.joined_at - b.joined_at` is). -/
def insertByJoin (p : Player) : List Player → List Player
  | [] => [p]
  | q :: qs => if p.joinedAt ≤ q.joinedAt then p :: q :: qs else q :: insertByJoin p qs

/-- `[...players].sort((a, b) => new Date(a.joined_at) - new Date(b.joined_at))`:
sort participants by join time, earliest first. -/
def sortByJoin : List Player → List Player
  | [] => []
  | p :: ps => insertByJoin p (sortByJoin ps)

/-! ## Scoring (`calculateScore` in the latest revision) -/

/-- `calculateScore` from the latest `GameRoom` revision: dynamic quarter
intervals of the configured round duration. -/
def calculateScore (elapsedSeconds : ℚ) (roundDuration : ℚ) : ℕ :=
  let quarterDuration := roundDuration / 4
  if elapsedSeconds ≤ quarterDuration then 400
  else if elapsedSeconds ≤ quarterDuration * 2 then 300
  else if elapsedSeconds ≤ quarterDuration * 3 then 200
  else 100

/-- The scoring rule exactly as the spec words it: `q = roundDurationSeconds / 4`;
award 400 if `elapsed ≤ q`, 300 if `elapsed ≤ 2q`, 200 if `elapsed ≤ 3q`,
else 100. Kept separate from `calculateScore` so the two can be compared. -/
def specQuarterScore (elapsed : ℚ) (roundDurationSeconds : ℚ) : ℕ :=
  let q := roundDurationSeconds / 4
  if elapsed ≤ q then 400
  else if elapsed ≤ 2 * q then 300
  else if elapsed ≤ 3 * q then 200
  else 100

/-- `Math.floor((guess timestamp − phaseStartedAt) / 1000)`: the whole number
of seconds between the start of the Playing phase and a guess, both given in
milliseconds. -/
def elapsedWholeSeconds (phaseStartedAtMs guessAtMs : ℕ) : ℕ :=
  (guessAtMs - phaseStartedAtMs) / 1000

/-! ## Guess marking (`sendMessage`) -/

/-- JavaScript `toLowerCase` on the character sequence of a string. -/
def lowercase (s : String) : String :=
  String.mk (s.data.map Char.toLower)

/-- Whitespace as JavaScript `trim` sees it (for the ASCII fragment). -/
def isWsChar (c : Char) : Bool :=
  c = ' ' || c = '\t' || c = '\n' || c = '\r'

/-- Remove leading whitespace characters. -/
def dropLeadingWs : List Char → List Char
  | [] => []
  | c :: cs => if isWsChar c then dropLeadingWs cs else c :: cs

/-- JavaScript `trim`: remove leading and trailing whitespace. -/
def trimWs (s : String) : String :=
  String.mk ((dropLeadingWs ((dropLeadingWs s.data).reverse)).reverse)

/-- `isGuess` in `sendMessage`: the message is a guess exactly when the game
is in the Playing phase and the sender is not the current drawer. -/
def sendIsGuess (status : Phase) (senderId : String) (currentDrawer : Option String) : Bool :=
  status == Phase.playing && !(currentDrawer == some senderId)

/-- `isCorrect` in `sendMessage`:
`isGuess && newMessage.toLowerCase().trim() === currentWord.toLowerCase()`. -/
def sendIsCorrect (status : Phase) (senderId : String) (currentDrawer : Option String)
    (messageText currentWord : String) : Bool :=
  sendIsGuess status senderId currentDrawer
    && (trimWs (lowercase messageText) == lowercase currentWord)

/-! ## Drawing permissions (`DrawingCanvas.tsx`) -/

/-- Whether `savePath` performs the durable `drawing_strokes` insert.  The
function guards only on a signed-in user (`if (!user) return;`); the current
drawer id is not consulted. -/
def savePathInserts (user : Option String) (currentDrawerId : Option String) : Bool :=
  match user with
  | none => false
  | some _ => true

/-- Whether `clearCanvas` performs the durable delete and the `canvas_clear`
broadcast: `if (user?.id === currentDrawerId)`. -/
def clearCanvasDeletes (user : Option String) (currentDrawerId : Option String) : Bool :=
  match user, currentDrawerId with
  | some uid, some d => uid == d
  | _, _ => false

/-- Whether `undoLastStroke` proceeds past its guard
(`if (user?.id !== currentDrawerId) return`). -/
def undoProceeds (user : Option String) (currentDrawerId : Option String) : Bool :=
  match user, currentDrawerId with
  | some uid, some d => uid == d
  | _, _ => false

/-- Whether the live-ink broadcast handlers are installed at all: the effect
returns early unless `user?.id === currentDrawerId`. -/
def liveInkSends (user : Option String) (currentDrawerId : Option String) : Bool :=
  match user, currentDrawerId with
  | some uid, some d => uid == d
  | _, _ => false

/-! ## Session state machine (`games` row and its transitions) -/

/-- The fields of a `games` row that the session transitions read and write.
Timestamp columns (`round_started_at`, `word_choice_started_at`) only drive
client timers and are omitted. -/
structure GameState where
  status : Phase
  round : Nat
  maxRounds : Nat
  showdowns : Nat
  currentWord : String
  currentDrawer : Option String
  usedWords : List String
deriving DecidableEq, Repr

/-- The row inserted by the lobby's `createGame`: `status: "waiting"`,
`round: 1`, `max_rounds: 1` (placeholder), the configured number of
showdowns; `current_word` and `current_drawer` start unset. -/
def createGame (showdowns : Nat) : GameState :=
  { status := Phase.waiting
    round := 1
    maxRounds := 1
    showdowns := showdowns
    currentWord := ""
    currentDrawer := none
    usedWords := [] }

/-- `getNextDrawer`: round-robin over the participants sorted by join time.
`nextRound = round + 1`; the drawer of that round is
`sortedPlayers[(nextRound - 1) % playersInGame]`. -/
def getNextDrawer (round : Nat) (players : List Player) : Option Player :=
  if players.length = 0 then none
  else
    let sortedPlayers := sortByJoin players
    let nextRound := round + 1
    sortedPlayers.get? ((nextRound - 1) % sortedPlayers.length)

/-- `startGame`: refuses with fewer than 2 players; otherwise picks the
earliest joiner as first drawer, sets `round` to 1, fixes
`max_rounds = showdowns × players.length`, clears the word and the used-word
list, and moves to the word-choice phase. -/
def startGame (players : List Player) (s : GameState) : GameState :=
  if players.length < 2 then s
  else
    match (sortByJoin players).head? with
    | none => s
    | some firstPlayer =>
      { s with
        status := Phase.choosingWord
        currentWord := ""
        currentDrawer := some firstPlayer.userId
        round := 1
        maxRounds := s.showdowns * players.length
        usedWords := [] }

/-- `chooseWord`: store the chosen word, append it to `used_words`, and start
the Playing phase. -/
def chooseWord (word : String) (s : GameState) : GameState :=
  { s with
    currentWord := word
    status := Phase.playing
    usedWords := s.usedWords ++ [word] }

/-- `endRound`: if the next round exceeds `max_rounds` the game finishes
(only `status` and the timestamp change); otherwise the round counter
advances, the next round-robin drawer is installed and the session enters
the 5-second summary.  Note that the update payload does not touch
`current_word` in either branch. -/
def endRound (players : List Player) (s : GameState) : GameState :=
  let nextRound := s.round + 1
  if s.maxRounds < nextRound then
    { s with status := Phase.finished }
  else
    match getNextDrawer s.round players with
    | none => s
    | some nextDrawer =>
      { s with
        round := nextRound
        currentDrawer := some nextDrawer.userId
        status := Phase.roundSummary }

/-- The summary-expiry update (both the `setTimeout` in `endRound` and the
refresh-handling effect): only `status` and the timestamp columns change;
`current_word` is not cleared. -/
def summaryToChoosing (s : GameState) : GameState :=
  { s with status := Phase.choosingWord }

/-- The auto-end effect's update when the roster stays at ≤ 1 players:
`update({ status: "finished" })`. -/
def forceFinish (s : GameState) : GameState :=
  { s with status := Phase.finished }

/-- One transition of the session, for a fixed roster `players`.  The guards
record the circumstances under which each write runs: the start button is
only shown in the waiting room with at least 2 players, a word is chosen
(from the non-empty word-list entries) during the word-choice phase, a round
ends while playing, the summary expires during the summary, and the auto-end
update fires from any active phase. -/
inductive Step (players : List Player) : GameState → GameState → Prop
  | start (s : GameState) :
      s.status = Phase.waiting → 2 ≤ players.length →
      Step players s (startGame players s)
  | choose (s : GameState) (word : String) :
      s.status = Phase.choosingWord → word ≠ "" →
      Step players s (chooseWord word s)
  | endR (s : GameState) :
      s.status = Phase.playing →
      Step players s (endRound players s)
  | summary (s : GameState) :
      s.status = Phase.roundSummary →
      Step players s (summaryToChoosing s)
  | force (s : GameState) :
      (s.status = Phase.choosingWord ∨ s.status = Phase.playing ∨
        s.status = Phase.roundSummary) →
      Step players s (forceFinish s)

/-- A session state reachable from a freshly created game by the transitions
above. -/
def Reachable (players : List Player) (showdowns : Nat) (s : GameState) : Prop :=
  Relation.ReflTransGen (Step players) (createGame showdowns) s

/-! ## Guess tracker (`correctGuessers` / `stillGuessing`) -/

/-- The per-round tracker: `solved` is `correctGuessers`, `pending` is
`stillGuessing`. -/
structure Tracker where
  solved : Finset String
  pending : Finset String
deriving DecidableEq

/-- Round initialisation: the drawer joins `correctGuessers` immediately and
every other participant starts in `stillGuessing`. -/
def initTracker (currentDrawer : String) (players : List Player) : Tracker :=
  { solved := {currentDrawer}
    pending := ((players.map Player.userId).filter (fun id => id ≠ currentDrawer)).toFinset }

/-- One `chat_messages` row as the tracker sees it. -/
structure ChatEntry where
  userId : Option String
  isCorrect : Bool
  createdAt : Nat
deriving DecidableEq, Repr

/-- Processing one chat entry, mirroring the process-correct-guesses effect:
entries pass the filter `is_correct && user_id && created_at ≥
currentRoundStartedAt`, and a passing author still in `stillGuessing` is
moved to `correctGuessers`; everything else is a no-op. -/
def processEntry (roundStartedAt : Nat) (t : Tracker) (e : ChatEntry) : Tracker :=
  match e.userId with
  | none => t
  | some uid =>
    if e.isCorrect = true ∧ roundStartedAt ≤ e.createdAt then
      if uid ∈ t.pending then
        { solved := insert uid t.solved, pending := t.pending.erase uid }
      else t
    else t

/-- The effect runs over the whole message list. -/
def processMessages (roundStartedAt : Nat) (t : Tracker) (ms : List ChatEntry) : Tracker :=
  ms.foldl (processEntry roundStartedAt) t

/-- The end-round-when-everyone-guessed condition:
`stillGuessing.size === 0 && correctGuessers.size > 1`. -/
def shouldEndRound (t : Tracker) : Bool :=
  t.pending.card = 0 && 1 < t.solved.card

/-- A client's per-round derived state: the tracker plus the cumulative
scores it displays.  Receiving (or re-receiving) a chat entry only updates
the tracker; scores are written by `sendMessage` on the sender's side when
the message is first sent, never when an entry is delivered. -/
structure ClientState where
  tracker : Tracker
  scores : String → Nat

/-- Delivery of one chat entry to a client. -/
def receiveEntry (roundStartedAt : Nat) (cs : ClientState) (e : ChatEntry) : ClientState :=
  { cs with tracker := processEntry roundStartedAt cs.tracker e }

/-! ## Word selection (word-choices effect) -/

/-- The word bank filtered case-insensitively against `usedWords` (which the
client stores lowercased): `wordList.filter((w) => !usedWords.has(w.toLowerCase()))`. -/
def availableWords (wordList usedWords : List String) : List String :=
  wordList.filter (fun w => !(usedWords.contains (lowercase w)))

/-- The word-choices effect, with the shuffle abstracted as a function
`shuffle` (the code uses `sort(() => 0.5 - Math.random())`).  Nothing is
generated unless the bank has at least 3 words; the source falls back to the
unfiltered bank when fewer than 3 unused words remain; the final selection
filters used words again and takes the first 3. -/
def wordChoicesFor (shuffle : List String → List String)
    (wordList usedWords : List String) : List String :=
  if wordList.length < 3 then []
  else
    let available := availableWords wordList usedWords
    let source := if 3 ≤ available.length then available else wordList
    let shuffled := shuffle source
    let choices := shuffled.filter (fun w => !(usedWords.contains (lowercase w)))
    choices.take 3

/-! ## Auto-end confirmation window (auto-end-game effect) -/

/-- Whether a phase is one of the active phases the auto-end effect watches:
`["choosing_word", "playing", "round_summary"]`. -/
def isActivePhase (p : Phase) : Bool :=
  p == Phase.choosingWord || p == Phase.playing || p == Phase.roundSummary

/-- The client state relevant to the auto-end effect: the phase, the roster
size, and the pending 3-second confirmation timeout (remaining whole
seconds), if armed. -/
structure AutoEndState where
  status : Phase
  playerCount : Nat
  timer : Option Nat
deriving DecidableEq, Repr

/-- Re-running the effect after its dependencies change: the cleanup clears
any pending timeout, and a new 3-second one is scheduled exactly when the
roster has at most one player during an active phase. -/
def rearmAutoEnd (s : AutoEndState) : AutoEndState :=
  if s.playerCount ≤ 1 ∧ isActivePhase s.status = true then
    { s with timer := some 3 }
  else
    { s with timer := none }

/-- Events the auto-end effect reacts to: a roster change (join/leave
notification, which re-runs the effect) and the passage of one second. -/
inductive AutoEvent
  | roster (newCount : Nat)
  | tick
deriving DecidableEq, Repr

/-- One step of the auto-end behaviour.  When the armed timeout elapses it
re-fetches the roster and finishes the game only if the count is still at
most 1. -/
def autoStep (s : AutoEndState) : AutoEvent → AutoEndState
  | AutoEvent.roster n => rearmAutoEnd { s with playerCount := n }
  | AutoEvent.tick =>
    match s.timer with
    | none => s
    | some k =>
      if k ≤ 1 then
        if s.playerCount ≤ 1 then
          { s with status := Phase.finished, timer := none }
        else
          { s with timer := none }
      else
        { s with timer := some (k - 1) }

/-- A sequence of auto-end events. -/
def runAuto (s : AutoEndState) (events : List AutoEvent) : AutoEndState :=
  events.foldl autoStep s

/-- Two concrete participants, joined in this order. -/
def twoPlayers : List Player :=
  [⟨"alice", 1, 0⟩, ⟨"bob", 2, 0⟩]

/-- Three concrete participants, joined in this order. -/
def threePlayers : List Player :=
  [⟨"p0", 1, 0⟩, ⟨"p1", 2, 0⟩, ⟨"p2", 3, 0⟩]

/-- The session state after one full round and the summary expiry, for two
players and two showdowns. -/
def afterFirstSummary : GameState :=
  summaryToChoosing
    (endRound twoPlayers (chooseWord "cat" (startGame twoPlayers (createGame 2))))

/-- Reassign every player's score (join time and identity unchanged). -/
def withScore (g : String → Nat) (p : Player) : Player :=
  { p with score := g p.userId }

/-- C3 trace helper: play one full turn (choose a word, end the round, let
the summary expire) with the three concrete players. -/
def rrTurn (word : String) (s : GameState) : GameState :=
  summaryToChoosing (endRound threePlayers (chooseWord word s))

/-- The word-choice states of the six turns of a 3-player, 2-showdown game,
and the state after the sixth round ends. -/
def rrState1 : GameState := startGame threePlayers (createGame 2)

def rrState2 : GameState := rrTurn "w1" rrState1

def rrState3 : GameState := rrTurn "w2" rrState2

def rrState4 : GameState := rrTurn "w3" rrState3

def rrState5 : GameState := rrTurn "w4" rrState4

def rrState6 : GameState := rrTurn "w5" rrState5

def rrFinal : GameState := endRound threePlayers (chooseWord "w6" rrState6)

/-! ## Helper lemmas -/

theorem processEntry_idem (roundStartedAt : Nat) (t : Tracker) (e : ChatEntry) :
    processEntry roundStartedAt (processEntry roundStartedAt t e) e =
      processEntry roundStartedAt t e := by
  rcases e with ⟨uid, ic, ca⟩
  cases uid with
  | none => rfl
  | some u =>
    by_cases hc : ic = true ∧ roundStartedAt ≤ ca
    · by_cases hp : u ∈ t.pending
      · simp [processEntry, hc, hp, Finset.not_mem_erase]
      · simp [processEntry, hc, hp]
    · simp [processEntry, hc]

theorem insertByJoin_length (p : Player) (l : List Player) :
    (insertByJoin p l).length = l.length + 1 := by
  induction l with
  | nil => rfl
  | cons q qs ih =>
    unfold insertByJoin
    split
    · simp
    · simp [ih]

theorem sortByJoin_length (ps : List Player) :
    (sortByJoin ps).length = ps.length := by
  induction ps with
  | nil => rfl
  | cons p ps ih => simp [sortByJoin, insertByJoin_length, ih]

/-- What `startGame` does to the fields, once at least two players are
present. -/
theorem startGame_fields (players : List Player) (s : GameState)
    (h2 : 2 ≤ players.length) :
    (startGame players s).status = Phase.choosingWord ∧
    (startGame players s).currentWord = "" ∧
    (startGame players s).round = 1 ∧
    (startGame players s).currentDrawer =
      ((sortByJoin players).head?).map Player.userId := by
  have hlen : ¬ players.length < 2 := by omega
  cases hs : sortByJoin players with
  | nil =>
    exfalso
    have hl := sortByJoin_length players
    rw [hs] at hl
    simp at hl
    omega
  | cons p rest =>
    simp [startGame, hlen, hs]

/-- The three possible outcomes of `endRound`. -/
theorem endRound_cases (players : List Player) (s : GameState) :
    (s.maxRounds < s.round + 1 ∧
      endRound players s = { s with status := Phase.finished }) ∨
    (¬ s.maxRounds < s.round + 1 ∧ getNextDrawer s.round players = none ∧
      endRound players s = s) ∨
    (∃ nd, ¬ s.maxRounds < s.round + 1 ∧ getNextDrawer s.round players = some nd ∧
      endRound players s =
        { s with
          round := s.round + 1
          currentDrawer := some nd.userId
          status := Phase.roundSummary }) := by
  by_cases hfin : s.maxRounds < s.round + 1
  · exact Or.inl ⟨hfin, by simp [endRound, hfin]⟩
  · cases hnd : getNextDrawer s.round players with
    | none => exact Or.inr (Or.inl ⟨hfin, rfl, by simp [endRound, hfin, hnd]⟩)
    | some nd => exact Or.inr (Or.inr ⟨nd, hfin, rfl, by simp [endRound, hfin, hnd]⟩)

/-! ## Theorems on the claims -/

/-- C1: points on a correct guess follow the dynamic quarter formula
`q = roundDurationSeconds / 4` — 400 if `elapsed ≤ q`, 300 if `elapsed ≤ 2q`,
200 if `elapsed ≤ 3q`, else 100 — for every round duration, and in
particular with duration 80 the elapsed times 15, 35, 55, 65 yield
400, 300, 200, 100. -/
theorem scoring_matches_quarter_formula :
    (∀ elapsed roundDuration : ℚ,
        calculateScore elapsed roundDuration = specQuarterScore elapsed roundDuration) ∧
    calculateScore 15 80 = 400 ∧ calculateScore 35 80 = 300 ∧
    calculateScore 55 80 = 200 ∧ calculateScore 65 80 = 100 := by
  refine ⟨fun e d => ?_, by norm_num [calculateScore], by norm_num [calculateScore],
    by norm_num [calculateScore], by norm_num [calculateScore]⟩
  simp only [calculateScore, specQuarterScore, mul_comm]

/-- C10: a message sent during Playing by a non-drawer is marked correct
exactly when its text, lowercased and stripped of surrounding whitespace,
equals the lowercased current word; drawer messages and messages outside
Playing are never marked correct. -/
theorem guess_marking_iff :
    (∀ (status : Phase) (senderId : String) (currentDrawer : Option String)
        (messageText currentWord : String),
        sendIsCorrect status senderId currentDrawer messageText currentWord = true ↔
          status = Phase.playing ∧ currentDrawer ≠ some senderId ∧
            trimWs (lowercase messageText) = lowercase currentWord) ∧
    sendIsCorrect Phase.playing "guesser" (some "artist") "  Apple " "apple" = true ∧
    sendIsCorrect Phase.playing "guesser" (some "artist") "appel" "apple" = false ∧
    sendIsCorrect Phase.playing "artist" (some "artist") "apple" "apple" = false ∧
    sendIsCorrect Phase.choosingWord "guesser" (some "artist") "apple" "apple" = false := by
  refine ⟨?_, by decide, by decide, by decide, by decide⟩
  intro status senderId currentDrawer messageText currentWord
  simp [sendIsCorrect, sendIsGuess, and_assoc]

/-- C9 counterexample: a durable stroke write attempted by a signed-in user
who is not the current drawer is not rejected — `savePath` performs the
insert for any signed-in user. -/
theorem nonDrawer_stroke_write_goes_through :
    savePathInserts (some "guesser") (some "artist") = true ∧
    (some "guesser" : Option String) ≠ some "artist" := by
  exact ⟨rfl, by decide⟩

/-- C9 amended: clearing the canvas, undoing a stroke and broadcasting
ephemeral ink are gated on `user.id = currentDrawerId`, but the durable
stroke insert in `savePath` is gated only on a signed-in user, independent
of the drawer id. -/
theorem drawer_permission_gates :
    ∀ user currentDrawerId : Option String,
      (clearCanvasDeletes user currentDrawerId = true ↔
        ∃ u, user = some u ∧ currentDrawerId = some u) ∧
      (undoProceeds user currentDrawerId = true ↔
        ∃ u, user = some u ∧ currentDrawerId = some u) ∧
      (liveInkSends user currentDrawerId = true ↔
        ∃ u, user = some u ∧ currentDrawerId = some u) ∧
      (savePathInserts user currentDrawerId = true ↔ user ≠ none) := by
  intro user drawer
  cases user with
  | none => simp [clearCanvasDeletes, undoProceeds, liveInkSends, savePathInserts]
  | some u =>
    cases drawer with
    | none => simp [clearCanvasDeletes, undoProceeds, liveInkSends, savePathInserts]
    | some d =>
      simp only [clearCanvasDeletes, undoProceeds, liveInkSends, savePathInserts,
        beq_iff_eq, Option.some.injEq, ne_eq, reduceCtorEq, not_false_eq_true,
        iff_true, exists_eq_left]
      refine ⟨?_, ?_, ?_, trivial⟩ <;>
        exact ⟨fun h => ⟨d, h, rfl⟩, fun ⟨x, h1, h2⟩ => h1.trans h2.symm⟩

/-- C5: delivering the same correct-guess chat entry a second time changes
neither the solved/pending sets nor any cumulative score — re-processing is
a no-op. -/
theorem correct_guess_delivery_idempotent :
    ∀ (roundStartedAt : Nat) (cs : ClientState) (e : ChatEntry),
      receiveEntry roundStartedAt (receiveEntry roundStartedAt cs e) e =
        receiveEntry roundStartedAt cs e := by
  intro roundStartedAt cs e
  simp [receiveEntry, processEntry_idem]

/-- C7: a chat entry timestamped before the current Playing phase's start is
ignored — processing it never changes the solved or pending sets. -/
theorem stale_entry_ignored (roundStartedAt : Nat) (t : Tracker) (e : ChatEntry)
    (h : e.createdAt < roundStartedAt) :
    processEntry roundStartedAt t e = t := by
  rcases e with ⟨uid, ic, ca⟩
  cases uid with
  | none => rfl
  | some u =>
    have : ¬ (ic = true ∧ roundStartedAt ≤ ca) := by
      rintro ⟨-, hle⟩
      exact absurd hle (Nat.not_le_of_lt h)
    simp [processEntry, this]

/-- Witness for C7 at a concrete stale entry. -/
theorem stale_entry_ignored_check :
    processEntry 100 (initTracker "artist" [⟨"artist", 1, 0⟩, ⟨"guesser", 2, 0⟩])
        ⟨some "guesser", true, 50⟩ =
      initTracker "artist" [⟨"artist", 1, 0⟩, ⟨"guesser", 2, 0⟩] :=
  stale_entry_ignored 100 (initTracker "artist" [⟨"artist", 1, 0⟩, ⟨"guesser", 2, 0⟩])
    ⟨some "guesser", true, 50⟩ (by decide)

/-- C4: during Playing the all-guessed trigger fires exactly when the
pending set is empty and the solved set holds someone besides the drawer;
with one drawer and one guesser the round ends exactly after the guesser's
correct post-start entry, and with two guessers not before both solved. -/
theorem all_guessed_trigger :
    (∀ (t : Tracker) (drawer : String), drawer ∈ t.solved →
        (shouldEndRound t = true ↔
          t.pending = ∅ ∧ ∃ u ∈ t.solved, u ≠ drawer)) ∧
    (shouldEndRound (initTracker "a" [⟨"a", 1, 0⟩, ⟨"b", 2, 0⟩]) = false ∧
      shouldEndRound
        (processEntry 100 (initTracker "a" [⟨"a", 1, 0⟩, ⟨"b", 2, 0⟩])
          ⟨some "b", true, 150⟩) = true) ∧
    (shouldEndRound (initTracker "a" [⟨"a", 1, 0⟩, ⟨"b", 2, 0⟩, ⟨"c", 3, 0⟩]) = false ∧
      shouldEndRound
        (processEntry 100 (initTracker "a" [⟨"a", 1, 0⟩, ⟨"b", 2, 0⟩, ⟨"c", 3, 0⟩])
          ⟨some "b", true, 150⟩) = false ∧
      shouldEndRound
        (processEntry 100
          (processEntry 100 (initTracker "a" [⟨"a", 1, 0⟩, ⟨"b", 2, 0⟩, ⟨"c", 3, 0⟩])
            ⟨some "b", true, 150⟩)
          ⟨some "c", true, 200⟩) = true) := by
  refine ⟨?_, ⟨by decide, by decide⟩, ⟨by decide, by decide, by decide⟩⟩
  intro t drawer hdrawer
  simp only [shouldEndRound, Bool.and_eq_true, decide_eq_true_eq, Finset.card_eq_zero]
  constructor
  · rintro ⟨hpend, hcard⟩
    refine ⟨hpend, ?_⟩
    obtain ⟨a, ha, b, hb, hab⟩ := Finset.one_lt_card.mp hcard
    by_cases hadr : a = drawer
    · exact ⟨b, hb, by simpa [hadr] using hab.symm⟩
    · exact ⟨a, ha, hadr⟩
  · rintro ⟨hpend, u, hu, hne⟩
    exact ⟨hpend, Finset.one_lt_card.mpr ⟨u, hu, drawer, hdrawer, hne⟩⟩

/-- C2 counterexample: after the first round's summary expires the session
is back in the word-choice phase, yet `currentWord` still holds the previous
round's word — the summary-expiry update does not clear it, so `currentWord`
is non-empty outside Playing/RoundSummary. -/
theorem currentWord_not_cleared_in_choosing :
    Reachable twoPlayers 2 afterFirstSummary ∧
    afterFirstSummary.status = Phase.choosingWord ∧
    afterFirstSummary.currentWord = "cat" := by
  refine ⟨?_, by decide, by decide⟩
  show Relation.ReflTransGen (Step twoPlayers) (createGame 2) afterFirstSummary
  exact Relation.ReflTransGen.tail
    (Relation.ReflTransGen.tail
      (Relation.ReflTransGen.tail
        (Relation.ReflTransGen.tail Relation.ReflTransGen.refl
          (Step.start _ (by decide) (by decide)))
        (Step.choose _ "cat" (by decide) (by decide)))
      (Step.endR _ (by decide)))
    (Step.summary _ (by decide))

/-- C2 amended: in every reachable session state `currentWord` is non-empty
during Playing and RoundSummary and empty in the initial Waiting state, but
the transitions leaving RoundSummary and the two transitions into Finished
do not clear `currentWord` (so it can stay non-empty in ChoosingWord and
Finished, as the counterexample shows). -/
theorem currentWord_phase_invariant :
    (∀ (players : List Player) (showdowns : Nat) (s : GameState),
        Reachable players showdowns s →
          ((s.status = Phase.playing ∨ s.status = Phase.roundSummary) →
            s.currentWord ≠ "") ∧
          (s.status = Phase.waiting → s.currentWord = "")) ∧
    (∀ s : GameState, (summaryToChoosing s).currentWord = s.currentWord) ∧
    (∀ s : GameState, (forceFinish s).currentWord = s.currentWord) ∧
    (∀ (players : List Player) (s : GameState),
        (endRound players s).currentWord = s.currentWord) := by
  have hend : ∀ (players : List Player) (s : GameState),
      (endRound players s).currentWord = s.currentWord := by
    intro players s
    rcases endRound_cases players s with ⟨-, he⟩ | ⟨-, -, he⟩ | ⟨nd, -, -, he⟩ <;>
      rw [he]
  refine ⟨?_, fun s => rfl, fun s => rfl, hend⟩
  intro players showdowns s h
  induction h with
  | refl => simp [createGame]
  | @tail b c hprev step ih =>
    cases step with
    | start hw h2 =>
      obtain ⟨hst, hword, -, -⟩ := startGame_fields players b h2
      constructor
      · intro hcon
        rw [hst] at hcon
        rcases hcon with hcon | hcon <;> exact absurd hcon (by decide)
      · intro hcon
        rw [hst] at hcon
        exact absurd hcon (by decide)
    | choose word hst hword =>
      constructor
      · intro _
        simpa [chooseWord] using hword
      · intro hcon
        simp [chooseWord] at hcon
    | endR hst =>
      have hword : b.currentWord ≠ "" := ih.1 (Or.inl hst)
      constructor
      · intro _
        rw [hend players b]
        exact hword
      · intro hcon
        rcases endRound_cases players b with ⟨-, he⟩ | ⟨-, -, he⟩ | ⟨nd, -, -, he⟩ <;>
          rw [he] at hcon <;> simp_all
    | summary hst =>
      constructor
      · intro hcon
        rcases hcon with hcon | hcon <;> simp [summaryToChoosing] at hcon
      · intro hcon
        simp [summaryToChoosing] at hcon
    | force hact =>
      constructor
      · intro hcon
        rcases hcon with hcon | hcon <;> simp [forceFinish] at hcon
      · intro hcon
        simp [forceFinish] at hcon

theorem insertByJoin_map_withScore (g : String → Nat) (p : Player) (l : List Player) :
    insertByJoin (withScore g p) (l.map (withScore g)) =
      (insertByJoin p l).map (withScore g) := by
  induction l with
  | nil => rfl
  | cons q qs ih =>
    show insertByJoin (withScore g p) (withScore g q :: qs.map (withScore g)) = _
    unfold insertByJoin
    by_cases hle : p.joinedAt ≤ q.joinedAt
    · rw [if_pos hle,
        if_pos (show (withScore g p).joinedAt ≤ (withScore g q).joinedAt from hle)]
      rfl
    · rw [if_neg hle,
        if_neg (show ¬ (withScore g p).joinedAt ≤ (withScore g q).joinedAt from hle)]
      simp [ih]

theorem sortByJoin_map_withScore (g : String → Nat) (ps : List Player) :
    sortByJoin (ps.map (withScore g)) = (sortByJoin ps).map (withScore g) := by
  induction ps with
  | nil => rfl
  | cons p ps ih =>
    show insertByJoin (withScore g p) (sortByJoin (ps.map (withScore g))) = _
    rw [ih, insertByJoin_map_withScore]
    rfl

/-- C3: turn assignment is strict round-robin over the participants sorted
by join time — in every reachable state with an assigned drawer,
`currentDrawer = sortedPlayers[(round − 1) % playerCount]`; the assignment
ignores scores; and a 3-player, 2-showdown game assigns the six turns to
`p0, p1, p2, p0, p1, p2` and then finishes. -/
theorem turn_assignment_round_robin :
    (∀ (players : List Player) (showdowns : Nat) (s : GameState),
        Reachable players showdowns s →
        (s.status = Phase.choosingWord ∨ s.status = Phase.playing ∨
          s.status = Phase.roundSummary) →
        s.currentDrawer =
          ((sortByJoin players).get? ((s.round - 1) % players.length)).map
            Player.userId) ∧
    (∀ (g : String → Nat) (round : Nat) (players : List Player),
        (getNextDrawer round (players.map (withScore g))).map Player.userId =
          (getNextDrawer round players).map Player.userId) ∧
    (rrState1.currentDrawer = some "p0" ∧ rrState2.currentDrawer = some "p1" ∧
      rrState3.currentDrawer = some "p2" ∧ rrState4.currentDrawer = some "p0" ∧
      rrState5.currentDrawer = some "p1" ∧ rrState6.currentDrawer = some "p2" ∧
      rrFinal.status = Phase.finished) := by
  refine ⟨?_, ?_, by decide, by decide, by decide, by decide, by decide, by decide,
    by decide⟩
  · intro players showdowns s h
    induction h with
    | refl =>
      intro hact
      rcases hact with hc | hc | hc <;> simp [createGame] at hc
    | @tail b c hprev step ih =>
      cases step with
      | start hw h2 =>
        obtain ⟨-, -, hround, hdrawer⟩ := startGame_fields players b h2
        intro _
        rw [hdrawer, hround]
        simp only [Nat.sub_self, Nat.zero_mod]
        cases sortByJoin players with
        | nil => rfl
        | cons a l => rfl
      | choose word hst hword =>
        intro _
        have := ih (Or.inl hst)
        simpa [chooseWord] using this
      | endR hst =>
        rcases endRound_cases players b with ⟨-, he⟩ | ⟨-, hnd, he⟩ | ⟨nd, -, hnd, he⟩
        · rw [he]
          intro hact
          rcases hact with hc | hc | hc <;> simp at hc
        · rw [he]
          exact ih
        · rw [he]
          intro _
          have hlen : ¬ players.length = 0 := by
            intro h0
            rw [getNextDrawer, if_pos h0] at hnd
            exact Option.noConfusion hnd
          rw [getNextDrawer, if_neg hlen] at hnd
          simp only [Nat.add_sub_cancel] at hnd ⊢
          rw [sortByJoin_length] at hnd
          rw [hnd]
          rfl
      | summary hst =>
        intro _
        have := ih (Or.inr (Or.inr hst))
        simpa [summaryToChoosing] using this
      | force hact =>
        intro hcon
        rcases hcon with hc | hc | hc <;> simp [forceFinish] at hc
  · intro g round players
    by_cases hlen : players.length = 0
    · have hlen2 : (players.map (withScore g)).length = 0 := by simpa using hlen
      simp [getNextDrawer, hlen, hlen2]
    · have hlen2 : ¬ (players.map (withScore g)).length = 0 := by simpa using hlen
      simp only [getNextDrawer, if_neg hlen, if_neg hlen2, sortByJoin_map_withScore,
        List.length_map, List.get?_map, Option.map_map]
      rfl

/-- Witness for C3 at the first turn of the concrete 3-player game. -/
theorem turn_assignment_round_robin_check :
    rrState1.currentDrawer =
      ((sortByJoin threePlayers).get? ((rrState1.round - 1) % threePlayers.length)).map
        Player.userId :=
  turn_assignment_round_robin.1 threePlayers 2 rrState1
    (Relation.ReflTransGen.tail Relation.ReflTransGen.refl
      (Step.start _ (by decide) (by decide)))
    (Or.inl (by decide))

/-- C6 counterexample: with the bank `["alpha", "beta", "gamma"]` and
`"alpha"` already used, fewer than 3 unused words remain, yet only the 2
unused words are presented — the fallback source is filtered against
`usedWords` again, so 3 choices are not presented and no repeat is
possible.  (The identity permutation stands in for the shuffle.) -/
theorem word_choices_fallback_not_three :
    wordChoicesFor id ["alpha", "beta", "gamma"] ["alpha"] = ["beta", "gamma"] ∧
    (wordChoicesFor id ["alpha", "beta", "gamma"] ["alpha"]).length ≠ 3 :=
  ⟨by decide, by decide⟩

/-- C6 amended: for any shuffle that permutes its input, whenever at least
3 unused words remain the effect presents exactly 3 choices, all unused and
pairwise distinct (for a duplicate-free bank); whenever fewer than 3 unused
words remain it falls back to the unfiltered bank but filters used words
from the final selection again, so exactly the remaining unused words
(fewer than 3) are presented and a used word is never presented. -/
theorem word_choices_amended :
    ∀ (shuffle : List String → List String) (wordList usedWords : List String),
      (∀ l, List.Perm (shuffle l) l) →
      3 ≤ wordList.length →
      (3 ≤ (availableWords wordList usedWords).length →
          (wordChoicesFor shuffle wordList usedWords).length = 3 ∧
          (∀ w ∈ wordChoicesFor shuffle wordList usedWords,
              usedWords.contains (lowercase w) = false) ∧
          (wordList.Nodup → (wordChoicesFor shuffle wordList usedWords).Nodup)) ∧
      ((availableWords wordList usedWords).length < 3 →
          (wordChoicesFor shuffle wordList usedWords).length =
            (availableWords wordList usedWords).length ∧
          (∀ w ∈ wordChoicesFor shuffle wordList usedWords,
              usedWords.contains (lowercase w) = false)) := by
  intro shuffle wordList usedWords hperm h3
  have hnlt : ¬ wordList.length < 3 := by omega
  constructor
  · intro hA
    have hsrc : wordChoicesFor shuffle wordList usedWords =
        ((shuffle (availableWords wordList usedWords)).filter
          (fun w => !(usedWords.contains (lowercase w)))).take 3 := by
      simp [wordChoicesFor, hnlt, hA]
    have hmem : ∀ w ∈ shuffle (availableWords wordList usedWords),
        (!(usedWords.contains (lowercase w))) = true := by
      intro w hw
      have hwA : w ∈ availableWords wordList usedWords :=
        (hperm (availableWords wordList usedWords)).mem_iff.mp hw
      exact (List.mem_filter.mp hwA).2
    have hfilter : (shuffle (availableWords wordList usedWords)).filter
        (fun w => !(usedWords.contains (lowercase w))) =
        shuffle (availableWords wordList usedWords) :=
      List.filter_eq_self.mpr hmem
    rw [hsrc, hfilter]
    have hlen : (shuffle (availableWords wordList usedWords)).length =
        (availableWords wordList usedWords).length :=
      (hperm (availableWords wordList usedWords)).length_eq
    refine ⟨?_, ?_, ?_⟩
    · rw [List.length_take, hlen]
      omega
    · intro w hw
      have : w ∈ shuffle (availableWords wordList usedWords) :=
        (List.take_sublist 3 _).subset hw
      simpa using hmem w this
    · intro hnd
      have hndA : (availableWords wordList usedWords).Nodup :=
        List.Nodup.filter _ hnd
      have hndS : (shuffle (availableWords wordList usedWords)).Nodup :=
        (hperm (availableWords wordList usedWords)).symm.nodup hndA
      exact List.Nodup.sublist (List.take_sublist 3 _) hndS
  · intro hA
    have hnle : ¬ 3 ≤ (availableWords wordList usedWords).length := by omega
    have hsrc : wordChoicesFor shuffle wordList usedWords =
        ((shuffle wordList).filter
          (fun w => !(usedWords.contains (lowercase w)))).take 3 := by
      simp [wordChoicesFor, hnlt, hnle]
    have hpermf : List.Perm
        ((shuffle wordList).filter (fun w => !(usedWords.contains (lowercase w))))
        (availableWords wordList usedWords) :=
      List.Perm.filter _ (hperm wordList)
    have hlenf : ((shuffle wordList).filter
        (fun w => !(usedWords.contains (lowercase w)))).length =
        (availableWords wordList usedWords).length := hpermf.length_eq
    have htake : ((shuffle wordList).filter
        (fun w => !(usedWords.contains (lowercase w)))).take 3 =
        (shuffle wordList).filter (fun w => !(usedWords.contains (lowercase w))) := by
      apply List.take_of_length_le
      omega
    rw [hsrc, htake]
    refine ⟨hlenf, ?_⟩
    · intro w hw
      simpa using (List.mem_filter.mp hw).2

/-- Witness for C6 on a bank of 3 fresh words. -/
theorem word_choices_amended_check :
    (wordChoicesFor id ["alpha", "beta", "gamma"] []).length = 3 :=
  (((word_choices_amended id ["alpha", "beta", "gamma"] []
      (fun l => List.Perm.refl l) (by decide)).1) (by decide)).1

theorem autoStep_tick_of_timer_none (s : AutoEndState) (h : s.timer = none) :
    autoStep s AutoEvent.tick = s := by
  simp [autoStep, h]

theorem runAuto_ticks_of_timer_none (s : AutoEndState) (h : s.timer = none) (k : Nat) :
    runAuto s (List.replicate k AutoEvent.tick) = s := by
  induction k with
  | zero => rfl
  | succ n ih =>
    rw [List.replicate_succ]
    show runAuto (autoStep s AutoEvent.tick) (List.replicate n AutoEvent.tick) = s
    rw [autoStep_tick_of_timer_none s h]
    exact ih

/-- C8: in an active phase, a roster drop to at most one player that lasts
through the 3-second confirmation window finishes the game, while a drop
that recovers to at least two players within the window leaves the phase
unchanged forever after (the re-armed timeout is cleared and never fires). -/
theorem auto_end_confirmation_window :
    (∀ (s : AutoEndState) (n : Nat),
        isActivePhase s.status = true → n ≤ 1 →
        (runAuto s
          [AutoEvent.roster n, AutoEvent.tick, AutoEvent.tick,
            AutoEvent.tick]).status = Phase.finished) ∧
    (∀ (s : AutoEndState) (n m k : Nat),
        isActivePhase s.status = true → n ≤ 1 → 2 ≤ m →
        (runAuto s
          ([AutoEvent.roster n, AutoEvent.tick, AutoEvent.tick,
            AutoEvent.roster m] ++ List.replicate k AutoEvent.tick)).status =
          s.status) := by
  constructor
  · intro s n hact hn
    simp [runAuto, autoStep, rearmAutoEnd, hact, hn]
  · intro s n m k hact hn hm
    have hm1 : ¬ m ≤ 1 := by omega
    have hX : List.foldl autoStep s
        [AutoEvent.roster n, AutoEvent.tick, AutoEvent.tick, AutoEvent.roster m] =
        ⟨s.status, m, none⟩ := by
      simp [autoStep, rearmAutoEnd, hact, hn, hm1]
    rw [runAuto, List.foldl_append, hX]
    have hfix := runAuto_ticks_of_timer_none ⟨s.status, m, none⟩ rfl k
    rw [runAuto] at hfix
    rw [hfix]

/-- Witness for C8: a lone player for 3 seconds ends a playing session, and
a rejoin within the window keeps it playing. -/
theorem auto_end_confirmation_window_check :
    (runAuto ⟨Phase.playing, 2, none⟩
      [AutoEvent.roster 1, AutoEvent.tick, AutoEvent.tick,
        AutoEvent.tick]).status = Phase.finished ∧
    (runAuto ⟨Phase.playing, 2, none⟩
      ([AutoEvent.roster 1, AutoEvent.tick, AutoEvent.tick,
        AutoEvent.roster 2] ++ List.replicate 5 AutoEvent.tick)).status =
      Phase.playing :=
  ⟨auto_end_confirmation_window.1 ⟨Phase.playing, 2, none⟩ 1 (by decide) (by decide),
    auto_end_confirmation_window.2 ⟨Phase.playing, 2, none⟩ 1 2 5 (by decide)
      (by decide) (by decide)⟩

/-- Witness for C2 on a concrete reachable Playing state. -/
theorem currentWord_phase_invariant_check :
    (chooseWord "cat" (startGame twoPlayers (createGame 2))).currentWord ≠ "" :=
  (currentWord_phase_invariant.1 twoPlayers 2
    (chooseWord "cat" (startGame twoPlayers (createGame 2)))
    (Relation.ReflTransGen.tail
      (Relation.ReflTransGen.tail Relation.ReflTransGen.refl
        (Step.start _ (by decide) (by decide)))
      (Step.choose _ "cat" (by decide) (by decide)))).1 (Or.inl (by decide))

/-- Witness for C4 at a concrete tracker state. -/
theorem all_guessed_trigger_check :
    shouldEndRound ⟨{"a", "b"}, ∅⟩ = true ↔
      (∅ : Finset String) = ∅ ∧ ∃ u ∈ ({"a", "b"} : Finset String), u ≠ "a" :=
  all_guessed_trigger.1 ⟨{"a", "b"}, ∅⟩ "a" (by decide)

end SkribblAI
